import Mathlib

/-!
Shallow embedding of `src/process_pdfs.py` (PDF title / outline extractor).

Text is modelled as `List Char` over the ASCII range actually exercised by
the program; Python whitespace classes, `str.lower`, `str.isupper`,
`str.split`, `str.strip` are modelled by the corresponding ASCII-faithful
functions below.  Each regular expression of the source is hand-compiled to
an equivalent decision procedure on newline-free input (every pattern is
only ever applied to the output of `clean_text`, which collapses all
whitespace — newlines included — to single spaces); the compilation of each
pattern is documented at its definition.
-/

namespace PdfOutline

/-- Text as a list of characters. -/
abbrev Str := List Char

/-- Python whitespace (`\s`, `str.strip`, `str.split`) restricted to ASCII:
space, tab, newline, carriage return, vertical tab, form feed. -/
def pyIsSpace (c : Char) : Bool :=
  c = ' ' || c = '\t' || c = '\n' || c = '\r' || c = '\x0b' || c = '\x0c'

/-- The character a whitespace character is rewritten to by
`re.sub(r'\s+', ' ', ...)`. -/
def sp (c : Char) : Char := if pyIsSpace c then ' ' else c

/-- `re.sub(r'\s+', ' ', s)`: every maximal whitespace run becomes one space. -/
def collapseWS : Str → Str
  | [] => []
  | [c] => [sp c]
  | c :: d :: cs =>
    if pyIsSpace c && pyIsSpace d then collapseWS (d :: cs)
    else sp c :: collapseWS (d :: cs)

/-- Removal of trailing whitespace (the right half of Python `str.strip()`). -/
def rstrip : Str → Str
  | [] => []
  | c :: cs =>
    let r := rstrip cs
    if r.isEmpty && pyIsSpace c then [] else c :: r

/-- Python `str.strip()`: drop leading and trailing whitespace. -/
def stripWS (l : Str) : Str := rstrip (l.dropWhile pyIsSpace)

/-- `clean_text` (src/process_pdfs.py:7-11): `re.sub(r'\s+', ' ', text.strip())`,
with the empty string returned for falsy input. -/
def cleanText (s : Str) : Str :=
  if s.isEmpty then [] else collapseWS (stripWS s)

/-- Python `str.lower()` restricted to ASCII. -/
def lowerL (l : Str) : Str := l.map Char.toLower

/-- Python `s.split('\n')`: split on newlines, keeping empty pieces. -/
def splitLinesAux (acc : Str) : Str → List Str
  | [] => [acc.reverse]
  | c :: cs =>
    if c = '\n' then acc.reverse :: splitLinesAux [] cs
    else splitLinesAux (c :: acc) cs

/-- Python `s.split('\n')`. -/
def splitLines (s : Str) : List Str := splitLinesAux [] s

/-- Python `s.split()` (no separator): maximal non-whitespace runs. -/
def splitWsAux (acc : Str) : Str → List Str
  | [] => if acc.isEmpty then [] else [acc.reverse]
  | c :: cs =>
    if pyIsSpace c then
      if acc.isEmpty then splitWsAux [] cs else acc.reverse :: splitWsAux [] cs
    else splitWsAux (c :: acc) cs

/-- Python `s.split()` (no separator). -/
def splitWs (s : Str) : List Str := splitWsAux [] s

/-- `len(line.split())`. -/
def tokenCount (l : Str) : Nat := (splitWs l).length

/-! ## Heading classifier (`detect_intelligent_heading`, src/process_pdfs.py:39-116)

Each skip / level pattern of the source is a Python regex applied with
`re.match` (anchored at the start, not required to reach the end) to the
lowercased cleaned line.  The decision procedures below are the hand
compilations of those regexes for newline-free input. -/

/-- Heading level. -/
inductive HLevel where
  | H1 | H2 | H3
deriving DecidableEq, Repr

/-- `re.match(r'^\d+$', l)`: the whole line is one or more digits. -/
def pureDigitsPat (l : Str) : Bool := !l.isEmpty && l.all Char.isDigit

/-- Drops a literal prefix, or fails. -/
def afterLit (p : String) (l : Str) : Option Str :=
  if p.toList.isPrefixOf l then some (l.drop p.length) else none

/-- `re.match(r'^page\s+\d+', l)`: "page", one or more whitespace, a digit. -/
def pageNumPat (l : Str) : Bool :=
  match afterLit "page" l with
  | none => false
  | some r =>
    let w := r.takeWhile pyIsSpace
    !w.isEmpty && ((r.drop w.length).headD 'x').isDigit && !(r.drop w.length).isEmpty

/-- `re.match(r'^©.*', l)`: line starts with the copyright sign. -/
def copyrightPat (l : Str) : Bool := l.headD 'x' = '©' && !l.isEmpty

/-- `re.match(r'^www\.', l)`. -/
def wwwPat (l : Str) : Bool := "www.".toList.isPrefixOf l

/-- `re.match(r'^http', l)`. -/
def httpPat (l : Str) : Bool := "http".toList.isPrefixOf l

/-- The month alternation of the date skip pattern. -/
def monthLits : List Str :=
  (["jan", "feb", "mar", "apr", "may", "jun",
    "jul", "aug", "sep", "oct", "nov", "dec"] : List String).map String.toList

/-- `re.match(r'^\d{1,2}\s+(jan|...|dec)', l)`: since the character after the
consumed digits must be whitespace, the maximal digit run must itself have
length 1 or 2, followed by whitespace and a month literal. -/
def datePat (l : Str) : Bool :=
  let d := l.takeWhile Char.isDigit
  (d.length = 1 || d.length = 2) &&
    (let r := l.drop d.length
     let w := r.takeWhile pyIsSpace
     !w.isEmpty && monthLits.any (fun m => m.isPrefixOf (r.drop w.length)))

/-- `re.match(r'\.{3,}', l)`: `re.match` anchors at the start, so this fires
exactly when the line starts with three dots. -/
def dotsPat (l : Str) : Bool := "...".toList.isPrefixOf l

/-- The skip loop (src/process_pdfs.py:59-61): any skip pattern rejects. -/
def skipMatch (l : Str) : Bool :=
  pureDigitsPat l || pageNumPat l || copyrightPat l || wwwPat l || httpPat l ||
    datePat l || dotsPat l

/-- `re.match(r'^(\d+)\.\s+(.+)', l)` on newline-free input: a nonempty digit
run, a dot, a whitespace character, then at least one further character. -/
def h1NumDot (l : Str) : Bool :=
  let d := l.takeWhile Char.isDigit
  let r := l.drop d.length
  !d.isEmpty && r.headD 'x' == '.' && pyIsSpace ((r.drop 1).headD 'x') && 3 ≤ r.length

/-- `re.match(r'^(chapter\s+\d+)\s*:?\s*(.+)', l)` on newline-free input:
"chapter", whitespace, a digit, and at least one further character (either a
second digit — eaten by `.+` — or anything after the digit run, since
`\s*:?\s*` may be empty and `.` matches every newline-free character). -/
def h1Chapter (l : Str) : Bool :=
  match afterLit "chapter" l with
  | none => false
  | some r =>
    let w := r.takeWhile pyIsSpace
    let r2 := r.drop w.length
    !w.isEmpty && !(r2.takeWhile Char.isDigit).isEmpty && 2 ≤ r2.length

/-- `re.match(r'^(part\s+[ivx]+)\s*:?\s*(.+)', l)` on newline-free input,
compiled exactly like the chapter pattern with roman-numeral characters. -/
def h1Part (l : Str) : Bool :=
  match afterLit "part" l with
  | none => false
  | some r =>
    let w := r.takeWhile pyIsSpace
    let r2 := r.drop w.length
    !w.isEmpty &&
      !(r2.takeWhile (fun c => c = 'i' || c = 'v' || c = 'x')).isEmpty &&
      2 ≤ r2.length

/-- The fixed H1 vocabulary (src/process_pdfs.py:76-81). -/
def h1Sections : List Str :=
  (["introduction", "overview", "background", "summary", "conclusion",
    "references", "bibliography", "acknowledgements", "acknowledgments",
    "appendix", "index", "glossary", "abstract", "revision history",
    "table of contents"] : List String).map String.toList

/-- `re.match(r'^(\d+\.\d+)\s+(.+)', l)` on newline-free input: digit run,
dot, digit run, a whitespace character, at least one further character. -/
def h2NumPat (l : Str) : Bool :=
  let d1 := l.takeWhile Char.isDigit
  let r1 := l.drop d1.length
  let m1 := r1.drop 1
  let d2 := m1.takeWhile Char.isDigit
  let r2 := m1.drop d2.length
  !d1.isEmpty && r1.headD 'x' == '.' && !d2.isEmpty &&
    pyIsSpace (r2.headD 'x') && 2 ≤ r2.length

/-- `re.match(r'^(\d+\.\d+\.\d+)\s+(.+)', l)` on newline-free input. -/
def h3NumPat (l : Str) : Bool :=
  let d1 := l.takeWhile Char.isDigit
  let r1 := l.drop d1.length
  let m1 := r1.drop 1
  let d2 := m1.takeWhile Char.isDigit
  let r2 := m1.drop d2.length
  let m2 := r2.drop 1
  let d3 := m2.takeWhile Char.isDigit
  let r3 := m2.drop d3.length
  !d1.isEmpty && r1.headD 'x' == '.' && !d2.isEmpty && r2.headD 'x' == '.' &&
    !d3.isEmpty && pyIsSpace (r3.headD 'x') && 2 ≤ r3.length

/-- Python `str.isupper()` over ASCII: at least one cased character, and no
cased character is lowercase. -/
def pyIsUpper (l : Str) : Bool := l.any Char.isAlpha && l.all (fun c => !c.isLower)

/-- Python `line.endswith(':')`. -/
def endsColon (l : Str) : Bool := l.getLast? = some ':'

/-- Body of `detect_intelligent_heading` after the initial
`line = clean_text(line)` (src/process_pdfs.py:42-116), taking the already
cleaned line.  The source's pattern loops all return the same value for every
pattern in the list, so each loop is compiled to the disjunction of its
patterns. -/
def detectCore (line : Str) : Option (HLevel × Str) :=
  let ll := lowerL line
  if line.length < 3 ∨ 200 < line.length then none
  else if skipMatch ll then none
  else if h1NumDot ll ∨ h1Chapter ll ∨ h1Part ll then some (.H1, line)
  else if stripWS ll ∈ h1Sections then some (.H1, line)
  else if h2NumPat ll then some (.H2, line)
  else if h3NumPat ll then some (.H3, line)
  else if pyIsUpper line ∧ 5 ≤ line.length ∧ line.length ≤ 60 ∧ tokenCount line ≤ 8 then
    some (.H1, line)
  else if endsColon line ∧ 10 ≤ line.length ∧ line.length ≤ 80 ∧ tokenCount line ≤ 10 then
    some (.H2, stripWS line.dropLast)
  else none

/-- `detect_intelligent_heading(line, page_num)` (src/process_pdfs.py:39-116).
The page number parameter is received but never read by the source. -/
def detect (line : Str) (pageNum : Nat) : Option (HLevel × Str) :=
  detectCore (cleanText line)

/-! ## Title selector (`extract_title_smart`, src/process_pdfs.py:13-37) -/

/-- The metadata substrings skipped by the title selector
(src/process_pdfs.py:30-32). -/
def titleSkipWords : List Str :=
  (["copyright", "version", "page", "©", "date", "www", "http"] : List String).map
    String.toList

/-- Python's substring containment `needle in hay`. -/
def isSubOf (needle : Str) : Str → Bool
  | [] => needle.isPrefixOf []
  | c :: cs => needle.isPrefixOf (c :: cs) || isSubOf needle cs

/-- `re.match(r'^\d+\.', line)`: a nonempty digit run followed by a dot. -/
def numDotStart (l : Str) : Bool :=
  let d := l.takeWhile Char.isDigit
  !d.isEmpty && (l.drop d.length).headD 'x' = '.'

/-- The acceptance test of the title loop body (src/process_pdfs.py:28-34). -/
def titleAccept (line : Str) : Bool :=
  let ll := lowerL line
  15 ≤ line.length && line.length ≤ 150 && 3 ≤ tokenCount line &&
    !(titleSkipWords.any (fun w => isSubOf w ll)) &&
    !numDotStart line && !("table of".toList.isPrefixOf ll)

/-- The `for line in lines[:15]` loop (src/process_pdfs.py:27-35): return the
first accepted candidate with two spaces appended, else the empty string. -/
def titleLoop : List Str → Str
  | [] => []
  | l :: ls => if titleAccept l then l ++ [' ', ' '] else titleLoop ls

/-- The candidate list (src/process_pdfs.py:24,27): cleaned, non-empty lines
of the first page, first 15 only. -/
def titleCandidates (t : Str) : List Str :=
  (((splitLines t).map cleanText).filter (fun l => !l.isEmpty)).take 15

/-- `extract_title_smart` (src/process_pdfs.py:13-37), over the first page's
extracted text (`none` covers both an empty document and a page with no
extractable text, which the source maps to the empty title). -/
def extractTitleSmart (firstPageText : Option Str) : Str :=
  match firstPageText with
  | none => []
  | some t => if t.isEmpty then [] else titleLoop (titleCandidates t)

/-! ## Outline builder (`extract_outline_exact`, src/process_pdfs.py:118-152) -/

/-- An outline entry: the `{"level", "text", "page"}` record
(src/process_pdfs.py:137-141). -/
structure Entry where
  level : HLevel
  text : Str
  page : Nat
deriving DecidableEq, Repr

/-- The per-line attachment of the page number done by the builder
(src/process_pdfs.py:134-141): the classifier's `(level, text)` pair becomes
an entry carrying the current page number.  This is the spec's
`classify(rawLine, pageNumber)` contract. -/
def classify (line : Str) (pageNum : Nat) : Option Entry :=
  (detect line pageNum).map (fun lt => ⟨lt.1, lt.2, pageNum⟩)

/-- The inner line loop of the builder for one page's text
(src/process_pdfs.py:128-141). -/
def pageEntries (pageNum : Nat) (text : Str) : List Entry :=
  (splitLines text).filterMap (fun line =>
    let lineClean := cleanText line
    if lineClean.isEmpty ∨ lineClean.length < 3 then none
    else (detect lineClean pageNum).map (fun lt => ⟨lt.1, lt.2, pageNum⟩))

/-- One page of the builder loop: `text = page.extract_text(); if not text:
continue` (src/process_pdfs.py:124-126). -/
def pageEntriesOpt (pageNum : Nat) (text : Option Str) : List Entry :=
  match text with
  | none => []
  | some t => if t.isEmpty then [] else pageEntries pageNum t

/-- The page loop (src/process_pdfs.py:123-141), pages numbered from `pn`
(the source enumerates from 1). -/
def rawOutlineFrom (pn : Nat) : List (Option Str) → List Entry
  | [] => []
  | t :: rest => pageEntriesOpt pn t ++ rawOutlineFrom (pn + 1) rest

/-- The dedup loop (src/process_pdfs.py:143-150): `seen` holds the
`(level, text, page)` keys — which are exactly the entries — already kept. -/
def dedupGo (seen : List Entry) : List Entry → List Entry
  | [] => []
  | e :: rest => if e ∈ seen then dedupGo seen rest else e :: dedupGo (e :: seen) rest

/-- `extract_outline_exact` (src/process_pdfs.py:118-152) over the pages'
extracted texts. -/
def extractOutline (pages : List (Option Str)) : List Entry :=
  dedupGo [] (rawOutlineFrom 1 pages)

/-- First-occurrence deduplication in its canonical recursive form: keep the
head, drop its later duplicates, recurse.  Used to state that the builder's
dedup keeps exactly the first occurrence of every key in order. -/
def firstDedup : List Entry → List Entry
  | [] => []
  | e :: rest => e :: firstDedup (rest.filter (fun x => x ≠ e))
termination_by l => l.length
decreasing_by
  simp only [List.length_cons]
  exact Nat.lt_succ_of_le (List.length_filter_le _ _)

/-! ## Lemmas about the normalizer -/

/-- No two adjacent whitespace characters. -/
def noAdjWS : Str → Bool
  | c :: d :: cs => !(pyIsSpace c && pyIsSpace d) && noAdjWS (d :: cs)
  | _ => true

/-- Every whitespace character is a plain space. -/
def wsIsSp (l : Str) : Bool := l.all (fun c => !pyIsSpace c || c = ' ')

theorem collapseWS_ne_nil {l : Str} (h : l ≠ []) : collapseWS l ≠ [] := by
  induction l using collapseWS.induct with
  | case1 => exact absurd rfl h
  | case2 c => simp [collapseWS]
  | case3 c d cs hw ih => simpa [collapseWS, hw] using ih (by simp)
  | case4 c d cs hw ih => simp [collapseWS, hw]

theorem head?_collapseWS {d : Char} (cs : Str) (hd : pyIsSpace d = false) :
    (collapseWS (d :: cs)).head? = some d := by
  cases cs with
  | nil => simp [collapseWS, sp, hd]
  | cons e cs' => simp [collapseWS, sp, hd]

theorem sp_pyIsSpace (c : Char) : pyIsSpace (sp c) = pyIsSpace c := by
  unfold sp
  by_cases h : pyIsSpace c = true
  · simp [h]
    decide
  · simp [h]

theorem sp_ok (c : Char) : (!pyIsSpace (sp c) || decide (sp c = ' ')) = true := by
  unfold sp
  by_cases h : pyIsSpace c = true
  · simp [h]
  · simp [h]

theorem noAdjWS_collapseWS (l : Str) : noAdjWS (collapseWS l) = true := by
  induction l using collapseWS.induct with
  | case1 => rfl
  | case2 c => simp [collapseWS, noAdjWS]
  | case3 c d cs hw ih => simpa [collapseWS, hw] using ih
  | case4 c d cs hw ih =>
    simp only [collapseWS, hw, if_false]
    have hne := collapseWS_ne_nil (l := d :: cs) (by simp)
    obtain ⟨x, xs, hx⟩ := List.exists_cons_of_ne_nil hne
    rw [hx]
    simp only [noAdjWS, Bool.and_eq_true]
    refine ⟨?_, by rw [← hx]; exact ih⟩
    by_cases hc : pyIsSpace c = true
    · have hdns : pyIsSpace d = false := by
        cases hdw : pyIsSpace d
        · rfl
        · exact absurd (show (pyIsSpace c && pyIsSpace d) = true by simp [hc, hdw]) hw
      have := head?_collapseWS cs hdns
      rw [hx] at this
      simp only [List.head?_cons, Option.some.injEq] at this
      subst this
      simp [sp_pyIsSpace, hdns]
    · simp only [Bool.not_eq_true] at hc
      simp [sp_pyIsSpace, hc]

theorem wsIsSp_collapseWS (l : Str) : wsIsSp (collapseWS l) = true := by
  induction l using collapseWS.induct with
  | case1 => rfl
  | case2 c =>
    simp only [collapseWS, wsIsSp, List.all_cons, List.all_nil, Bool.and_true]
    exact sp_ok c
  | case3 c d cs hw ih => simpa [collapseWS, hw] using ih
  | case4 c d cs hw ih =>
    simp only [collapseWS, hw, if_false]
    simp only [wsIsSp, List.all_cons] at ih ⊢
    simp [sp_ok c, ih]

theorem collapseWS_eq_self {l : Str} (h1 : noAdjWS l = true) (h2 : wsIsSp l = true) :
    collapseWS l = l := by
  induction l using collapseWS.induct with
  | case1 => rfl
  | case2 c =>
    simp only [wsIsSp, List.all_cons, List.all_nil, Bool.and_true] at h2
    simp only [collapseWS]
    by_cases h : pyIsSpace c = true
    · simp only [h, Bool.not_true, Bool.false_or, decide_eq_true_eq] at h2
      simp [sp, h, h2]
    · simp [sp, h]
  | case3 c d cs hw ih =>
    simp [noAdjWS, hw] at h1
  | case4 c d cs hw ih =>
    simp only [noAdjWS, Bool.and_eq_true] at h1
    simp only [wsIsSp, List.all_cons, Bool.and_eq_true] at h2
    simp only [collapseWS]
    rw [if_neg hw]
    simp only [List.cons.injEq]
    constructor
    · by_cases h : pyIsSpace c = true
      · have hc : c = ' ' := by
          simpa [h] using h2.1
        simp [sp, h, hc]
      · simp [sp, h]
    · exact ih h1.2 (by simp only [wsIsSp, List.all_cons, Bool.and_eq_true]; exact h2.2)

theorem head?_dropWhileWS {l : Str} {c : Char}
    (h : (l.dropWhile pyIsSpace).head? = some c) : pyIsSpace c = false := by
  induction l with
  | nil => simp [List.dropWhile] at h
  | cons a t ih =>
    rw [List.dropWhile_cons] at h
    by_cases ha : pyIsSpace a = true
    · rw [if_pos ha] at h
      exact ih h
    · rw [if_neg ha] at h
      simp only [List.head?_cons, Option.some.injEq] at h
      subst h
      simpa using ha

theorem head?_rstrip {l : Str} {c : Char} (h : (rstrip l).head? = some c) :
    l.head? = some c := by
  cases l with
  | nil => simp [rstrip] at h
  | cons a t =>
    simp only [rstrip] at h
    by_cases hb : ((rstrip t).isEmpty && pyIsSpace a) = true
    · rw [if_pos hb] at h
      simp at h
    · rw [if_neg hb] at h
      simp only [List.head?_cons, Option.some.injEq] at h
      simp [h]

theorem getLast?_rstrip {l : Str} {c : Char} (h : (rstrip l).getLast? = some c) :
    pyIsSpace c = false := by
  induction l with
  | nil => simp [rstrip] at h
  | cons a t ih =>
    simp only [rstrip] at h
    by_cases hb : ((rstrip t).isEmpty && pyIsSpace a) = true
    · rw [if_pos hb] at h
      simp at h
    · rw [if_neg hb] at h
      cases hr : rstrip t with
      | nil =>
        rw [hr] at h
        simp only [List.getLast?_singleton, Option.some.injEq] at h
        subst h
        rw [hr] at hb
        simpa using hb
      | cons x xs =>
        rw [hr, List.getLast?_cons_cons] at h
        exact ih (by rw [hr]; exact h)

theorem rstrip_eq_self {l : Str} {c : Char} (h : l.getLast? = some c)
    (hc : pyIsSpace c = false) : rstrip l = l := by
  induction l with
  | nil => simp at h
  | cons a t ih =>
    cases t with
    | nil =>
      simp only [List.getLast?_singleton, Option.some.injEq] at h
      subst h
      simp [rstrip, hc]
    | cons b t' =>
      rw [List.getLast?_cons_cons] at h
      have ht := ih h
      show (if (rstrip (b :: t')).isEmpty && pyIsSpace a then []
            else a :: rstrip (b :: t')) = a :: b :: t'
      rw [ht]
      simp

theorem dropWhileWS_eq_self {l : Str} {c : Char} (h : l.head? = some c)
    (hc : pyIsSpace c = false) : l.dropWhile pyIsSpace = l := by
  cases l with
  | nil => simp at h
  | cons a t =>
    simp only [List.head?_cons, Option.some.injEq] at h
    subst h
    simp [List.dropWhile_cons, hc]

theorem stripWS_eq_self {l : Str} {c d : Char} (hh : l.head? = some c)
    (hc : pyIsSpace c = false) (hl : l.getLast? = some d) (hd : pyIsSpace d = false) :
    stripWS l = l := by
  unfold stripWS
  rw [dropWhileWS_eq_self hh hc]
  exact rstrip_eq_self hl hd

theorem head?_stripWS {l : Str} {c : Char} (h : (stripWS l).head? = some c) :
    pyIsSpace c = false :=
  head?_dropWhileWS (head?_rstrip h)

theorem getLast?_stripWS {l : Str} {c : Char} (h : (stripWS l).getLast? = some c) :
    pyIsSpace c = false :=
  getLast?_rstrip h

theorem getLast?_collapseWS {l : Str} {c : Char} (h : l.getLast? = some c)
    (hc : pyIsSpace c = false) : (collapseWS l).getLast? = some c := by
  induction l using collapseWS.induct with
  | case1 => simp at h
  | case2 a =>
    simp only [List.getLast?_singleton, Option.some.injEq] at h
    subst h
    simp [collapseWS, sp, hc]
  | case3 a d cs hw ih =>
    rw [List.getLast?_cons_cons] at h
    simpa [collapseWS, hw] using ih h
  | case4 a d cs hw ih =>
    rw [List.getLast?_cons_cons] at h
    simp only [collapseWS]
    rw [if_neg hw]
    have hne := collapseWS_ne_nil (l := d :: cs) (by simp)
    obtain ⟨x, xs, hx⟩ := List.exists_cons_of_ne_nil hne
    rw [hx, List.getLast?_cons_cons, ← hx]
    exact ih h

/-- The normalizer is idempotent. -/
theorem cleanText_idem (s : Str) : cleanText (cleanText s) = cleanText s := by
  by_cases hs : s.isEmpty = true
  · simp [cleanText, hs]
  · rw [show cleanText s = collapseWS (stripWS s) from by simp [cleanText, hs]]
    by_cases hL : (collapseWS (stripWS s)).isEmpty = true
    · have h0 : collapseWS (stripWS s) = [] := by simpa using hL
      rw [h0]
      rfl
    · have hLne : collapseWS (stripWS s) ≠ [] := by simpa using hL
      rw [show cleanText (collapseWS (stripWS s)) =
            collapseWS (stripWS (collapseWS (stripWS s))) from by simp [cleanText, hL]]
      have hZ : stripWS s ≠ [] := by
        intro h0
        apply hLne
        rw [h0]
        rfl
      obtain ⟨c, cs0, hcc⟩ := List.exists_cons_of_ne_nil hZ
      have hheadc : pyIsSpace c = false :=
        head?_stripWS (l := s) (by rw [hcc]; rfl)
      obtain ⟨d, hd⟩ : ∃ d, (stripWS s).getLast? = some d := by
        have := List.getLast?_isSome (l := stripWS s)
        rw [Option.isSome_iff_exists] at this
        exact this.mpr hZ
      have hdns : pyIsSpace d = false := getLast?_stripWS hd
      have hLhead : (collapseWS (stripWS s)).head? = some c := by
        rw [hcc]
        exact head?_collapseWS _ hheadc
      have hLlast : (collapseWS (stripWS s)).getLast? = some d :=
        getLast?_collapseWS hd hdns
      rw [stripWS_eq_self hLhead hheadc hLlast hdns]
      exact collapseWS_eq_self (noAdjWS_collapseWS _) (wsIsSp_collapseWS _)

/-! ## Lemmas about deduplication -/

theorem dedupGo_eq_firstDedup (l : List Entry) :
    ∀ seen, dedupGo seen l = firstDedup (l.filter (fun x => decide (x ∉ seen))) := by
  induction l with
  | nil =>
    intro seen
    simp [dedupGo, firstDedup]
  | cons e rest ih =>
    intro seen
    by_cases he : e ∈ seen
    · rw [show dedupGo seen (e :: rest) = dedupGo seen rest from by
        simp [dedupGo, he]]
      rw [show (e :: rest).filter (fun x => decide (x ∉ seen)) =
            rest.filter (fun x => decide (x ∉ seen)) from by
        rw [List.filter_cons]
        simp [he]]
      exact ih seen
    · rw [show dedupGo seen (e :: rest) = e :: dedupGo (e :: seen) rest from by
        simp [dedupGo, he]]
      rw [show (e :: rest).filter (fun x => decide (x ∉ seen)) =
            e :: rest.filter (fun x => decide (x ∉ seen)) from by
        rw [List.filter_cons]
        simp [he]]
      rw [firstDedup, ih (e :: seen)]
      refine congrArg (fun t => e :: t) (congrArg firstDedup ?_)
      rw [List.filter_filter]
      refine List.filter_congr ?_
      intro x _
      by_cases h1 : x = e <;> by_cases h2 : x ∈ seen <;> simp [h1, h2]

theorem firstDedup_sublist (l : List Entry) : List.Sublist (firstDedup l) l := by
  induction l using firstDedup.induct with
  | case1 =>
    rw [show firstDedup [] = [] from by simp [firstDedup]]
  | case2 e rest ih =>
    rw [firstDedup]
    exact (ih.trans (List.filter_sublist _)).cons₂ e

theorem firstDedup_nodup (l : List Entry) : (firstDedup l).Nodup := by
  induction l using firstDedup.induct with
  | case1 =>
    rw [show firstDedup [] = [] from by simp [firstDedup]]
    exact List.nodup_nil
  | case2 e rest ih =>
    rw [firstDedup]
    refine List.Nodup.cons ?_ ih
    intro hmem
    have hin := (firstDedup_sublist _).subset hmem
    rw [List.mem_filter] at hin
    simp at hin

/-! ## Lemmas about the title loop -/

theorem titleLoop_shape (ls : List Str) :
    titleLoop ls = [] ∨ ∃ u, titleLoop ls = u ++ [' ', ' '] := by
  induction ls with
  | nil => exact Or.inl rfl
  | cons l t ih =>
    by_cases h : titleAccept l = true
    · exact Or.inr ⟨l, by simp [titleLoop, h]⟩
    · simpa [titleLoop, h] using ih

theorem titleLoop_none {ls : List Str} (h : ls.all (fun l => !titleAccept l) = true) :
    titleLoop ls = [] := by
  induction ls with
  | nil => rfl
  | cons l t ih =>
    simp only [List.all_cons, Bool.and_eq_true, Bool.not_eq_true'] at h
    rw [titleLoop, if_neg (by simp [h.1]), ih]
    simpa using h.2

/-! ## Lemmas about the classifier patterns -/

theorem takeWhile_head {p : Char → Bool} {l : Str}
    (h : (!(l.takeWhile p).isEmpty) = true) : ∃ c t, l = c :: t ∧ p c = true := by
  cases l with
  | nil => simp at h
  | cons a t =>
    refine ⟨a, t, rfl, ?_⟩
    by_cases hp : p a = true
    · exact hp
    · rw [List.takeWhile_cons, if_neg hp] at h
      simp at h

theorem headD_dot {r : Str} (h : (r.headD 'x' == '.') = true) : ∃ u, r = '.' :: u := by
  cases r with
  | nil =>
    rw [List.headD_nil] at h
    exact absurd h (by decide)
  | cons a u =>
    refine ⟨u, ?_⟩
    simp only [List.headD_cons, beq_iff_eq] at h
    rw [h]

theorem digit_ne {c x : Char} (hc : c.isDigit = true) (hx : x.isDigit = false) :
    c ≠ x := by
  intro he
  rw [he] at hc
  rw [hc] at hx
  exact absurd hx (by simp)

theorem isPrefixOf_false_head {a c : Char} {s t : Str} (hne : ¬ a = c) :
    (a :: s).isPrefixOf (c :: t) = false := by
  simp [List.isPrefixOf, hne]

/-- A line matching the `^(\d+)\.\s+(.+)` pattern matches no skip pattern:
its head is a digit (ruling out the five prefix-literal patterns and the
leading-dots pattern), the character after the digit run is a dot (ruling
out the date pattern, which needs whitespace there), and the dot also rules
out the all-digits pattern. -/
theorem h1NumDot_skip {l : Str} (h : h1NumDot l = true) : skipMatch l = false := by
  simp only [h1NumDot, Bool.and_eq_true, decide_eq_true_eq] at h
  obtain ⟨⟨⟨h1, h2⟩, h3⟩, h4⟩ := h
  obtain ⟨c, t, hl, hc⟩ := takeWhile_head h1
  obtain ⟨u, hr⟩ := headD_dot h2
  have hdotmem : '.' ∈ l := by
    apply List.drop_subset (l.takeWhile Char.isDigit).length l
    rw [hr]
    simp
  have hpure : pureDigitsPat l = false := by
    cases hpp : pureDigitsPat l
    · rfl
    · exfalso
      simp only [pureDigitsPat, Bool.and_eq_true, List.all_eq_true] at hpp
      have := hpp.2 '.' hdotmem
      simp at this
  have hpage : pageNumPat l = false := by
    rw [hl]
    unfold pageNumPat afterLit
    rw [show "page".toList = 'p' :: "age".toList from rfl]
    rw [isPrefixOf_false_head (digit_ne hc (by decide)).symm]
    simp
  have hcopy : copyrightPat l = false := by
    rw [hl]
    unfold copyrightPat
    simp [(digit_ne hc (by decide) : c ≠ '©')]
  have hwww : wwwPat l = false := by
    rw [hl]
    unfold wwwPat
    rw [show "www.".toList = 'w' :: "ww.".toList from rfl]
    exact isPrefixOf_false_head (digit_ne hc (by decide)).symm
  have hhttp : httpPat l = false := by
    rw [hl]
    unfold httpPat
    rw [show "http".toList = 'h' :: "ttp".toList from rfl]
    exact isPrefixOf_false_head (digit_ne hc (by decide)).symm
  have hdots : dotsPat l = false := by
    rw [hl]
    unfold dotsPat
    rw [show "...".toList = '.' :: "..".toList from rfl]
    exact isPrefixOf_false_head (digit_ne hc (by decide)).symm
  have hdate : datePat l = false := by
    simp only [datePat]
    rw [hr]
    rw [show ('.' :: u).takeWhile pyIsSpace = [] from by
      rw [List.takeWhile_cons, if_neg (by decide)]]
    simp
  simp [skipMatch, hpure, hpage, hcopy, hwww, hhttp, hdate, hdots]

theorem dotsPat_struct {l : Str} (h : dotsPat l = true) :
    ∃ u, l = '.' :: '.' :: '.' :: u := by
  unfold dotsPat at h
  rw [show "...".toList = ['.', '.', '.'] from rfl] at h
  cases l with
  | nil => simp [List.isPrefixOf] at h
  | cons a l1 =>
    cases l1 with
    | nil => simp [List.isPrefixOf] at h
    | cons b l2 =>
      cases l2 with
      | nil => simp [List.isPrefixOf] at h
      | cons c3 l3 =>
        refine ⟨l3, ?_⟩
        simp only [List.isPrefixOf, Bool.and_eq_true, beq_iff_eq] at h
        rw [← h.1, ← h.2.1, ← h.2.2.1]

theorem lowerL_length (l : Str) : (lowerL l).length = l.length := by
  simp [lowerL]

/-- If the lowercased cleaned line matches `^(\d+)\.\s+(.+)` and is at most
200 characters long, the classifier takes the first H1 branch and returns
the full cleaned line at level H1. -/
theorem detectCore_h1num {line : Str} (hnum : h1NumDot (lowerL line) = true)
    (hlen : line.length ≤ 200) : detectCore line = some (.H1, line) := by
  have hlen3 : 3 ≤ line.length := by
    have h := hnum
    simp only [h1NumDot, Bool.and_eq_true, decide_eq_true_eq] at h
    have h4 := h.2
    rw [List.length_drop, lowerL_length] at h4
    omega
  have hskip : skipMatch (lowerL line) = false := h1NumDot_skip hnum
  simp only [detectCore]
  rw [if_neg (by omega)]
  rw [if_neg (by simp [hskip])]
  rw [if_pos (Or.inl hnum)]

/-- If the cleaned line passes Python `isupper`, the length and token-count
windows of the all-caps rule, and is rejected by no earlier rule, the
classifier returns H1 with the full cleaned line. -/
theorem detectCore_allcaps {line : Str}
    (hup : pyIsUpper line = true) (h5 : 5 ≤ line.length) (h60 : line.length ≤ 60)
    (htok : tokenCount line ≤ 8)
    (hskip : skipMatch (lowerL line) = false)
    (hn1 : h1NumDot (lowerL line) = false) (hch : h1Chapter (lowerL line) = false)
    (hpt : h1Part (lowerL line) = false)
    (hsec : stripWS (lowerL line) ∉ h1Sections)
    (h2n : h2NumPat (lowerL line) = false) (h3n : h3NumPat (lowerL line) = false) :
    detectCore line = some (.H1, line) := by
  simp only [detectCore]
  rw [if_neg (by omega)]
  rw [if_neg (by simp [hskip])]
  rw [if_neg (by simp [hn1, hch, hpt])]
  rw [if_neg hsec]
  rw [if_neg (by simp [h2n])]
  rw [if_neg (by simp [h3n])]
  rw [if_pos ⟨hup, h5, h60, htok⟩]

/-- A line whose lowercased cleaned form starts with three dots is always
rejected: over-long lines die at the length check, all others at the
dots skip pattern. -/
theorem detect_dots_none (s : Str) (p : Nat)
    (h : dotsPat (lowerL (cleanText s)) = true) : detect s p = none := by
  obtain ⟨u, hu⟩ := dotsPat_struct h
  have hlen3 : 3 ≤ (cleanText s).length := by
    have : (lowerL (cleanText s)).length = u.length + 3 := by
      rw [hu]
      simp
    rw [lowerL_length] at this
    omega
  unfold detect
  simp only [detectCore]
  by_cases hbig : 200 < (cleanText s).length
  · rw [if_pos (Or.inr hbig)]
  · rw [if_neg (by omega)]
    rw [if_pos (show skipMatch (lowerL (cleanText s)) = true by simp [skipMatch, h])]

/-! ## Claims -/

/-- C1, counterexample: the line "1. Introduction ... page 5" contains three
consecutive dots, yet the classifier returns an H1 heading instead of the
`none` the claim demands — `re.match` anchors the dots pattern at the start
of the line. -/
theorem claim_C1_counterexample :
    isSubOf "...".toList (lowerL (cleanText "1. Introduction ... page 5".toList)) = true ∧
    detect "1. Introduction ... page 5".toList 1 =
      some (.H1, "1. Introduction ... page 5".toList) := by
  constructor
  · decide
  · decide

/-- C1 (amended): the classifier returns `none` whenever the lowercased
normalized line starts with three or more consecutive dots, whatever the
page number and whichever level rules would otherwise match. -/
theorem claim_C1 (s : Str) (p : Nat) (h : dotsPat (lowerL (cleanText s)) = true) :
    detect s p = none :=
  detect_dots_none s p h

/-- C1 witness: a concrete line starting with leader dots is rejected. -/
theorem claim_C1_witness :
    dotsPat (lowerL (cleanText "..... page".toList)) = true ∧
    detect "..... page".toList 1 = none :=
  ⟨by decide, claim_C1 _ 1 (by decide)⟩

/-- C2, counterexample: the line of digits-free symbols "$$$ %%% @@@" has
zero lowercase letters, length between 5 and 60, at most 8 tokens, is not
excluded and matches no earlier rule, yet the classifier returns `none` —
Python `isupper()` is false for a line with no cased character at all. -/
theorem claim_C2_counterexample :
    (cleanText "$$$ %%% @@@".toList).all (fun c => !c.isLower) = true ∧
    5 ≤ (cleanText "$$$ %%% @@@".toList).length ∧
    (cleanText "$$$ %%% @@@".toList).length ≤ 60 ∧
    tokenCount (cleanText "$$$ %%% @@@".toList) ≤ 8 ∧
    skipMatch (lowerL (cleanText "$$$ %%% @@@".toList)) = false ∧
    h1NumDot (lowerL (cleanText "$$$ %%% @@@".toList)) = false ∧
    h1Chapter (lowerL (cleanText "$$$ %%% @@@".toList)) = false ∧
    h1Part (lowerL (cleanText "$$$ %%% @@@".toList)) = false ∧
    stripWS (lowerL (cleanText "$$$ %%% @@@".toList)) ∉ h1Sections ∧
    h2NumPat (lowerL (cleanText "$$$ %%% @@@".toList)) = false ∧
    h3NumPat (lowerL (cleanText "$$$ %%% @@@".toList)) = false ∧
    detect "$$$ %%% @@@".toList 1 = none := by
  decide

/-- C2 (amended): for every normalized line with zero lowercase letters AND
at least one letter (Python `isupper` semantics), length between 5 and 60,
at most 8 tokens, not rejected by an exclusion pattern and not matched by a
higher-priority rule, the classifier returns H1 with the full normalized
line as display text. -/
theorem claim_C2 (s : Str) (p : Nat)
    (hup : pyIsUpper (cleanText s) = true)
    (h5 : 5 ≤ (cleanText s).length) (h60 : (cleanText s).length ≤ 60)
    (htok : tokenCount (cleanText s) ≤ 8)
    (hskip : skipMatch (lowerL (cleanText s)) = false)
    (hn1 : h1NumDot (lowerL (cleanText s)) = false)
    (hch : h1Chapter (lowerL (cleanText s)) = false)
    (hpt : h1Part (lowerL (cleanText s)) = false)
    (hsec : stripWS (lowerL (cleanText s)) ∉ h1Sections)
    (h2n : h2NumPat (lowerL (cleanText s)) = false)
    (h3n : h3NumPat (lowerL (cleanText s)) = false) :
    detect s p = some (.H1, cleanText s) :=
  detectCore_allcaps hup h5 h60 htok hskip hn1 hch hpt hsec h2n h3n

/-- C2 witness: "MARKET TRENDS 2023" is classified H1 by the all-caps rule. -/
theorem claim_C2_witness :
    pyIsUpper (cleanText "MARKET TRENDS 2023".toList) = true ∧
    detect "MARKET TRENDS 2023".toList 3 =
      some (.H1, cleanText "MARKET TRENDS 2023".toList) :=
  ⟨by decide,
   claim_C2 _ 3 (by decide) (by decide) (by decide) (by decide) (by decide)
     (by decide) (by decide) (by decide) (by decide) (by decide) (by decide)⟩

/-- C3: every line whose lowercased normalized form matches the H1 numbered
pattern `^\d+\.\s+.+` — in particular one that also satisfies the all-caps
rule, such as "1. OVERVIEW" — is classified H1 with the full normalized line
by the numbered-pattern rule; classification short-circuits, so the
numbered rule wins over the all-caps rule whenever both match. -/
theorem claim_C3 (s : Str) (p : Nat)
    (hnum : h1NumDot (lowerL (cleanText s)) = true)
    (hup : pyIsUpper (cleanText s) = true)
    (h5 : 5 ≤ (cleanText s).length) (h60 : (cleanText s).length ≤ 60)
    (htok : tokenCount (cleanText s) ≤ 8) :
    detect s p = some (.H1, cleanText s) :=
  detectCore_h1num hnum (le_trans h60 (by omega))

/-- C3 witness: "1. OVERVIEW" matches both rules and is classified by the
numbered rule. -/
theorem claim_C3_witness :
    h1NumDot (lowerL (cleanText "1. OVERVIEW".toList)) = true ∧
    pyIsUpper (cleanText "1. OVERVIEW".toList) = true ∧
    5 ≤ (cleanText "1. OVERVIEW".toList).length ∧
    (cleanText "1. OVERVIEW".toList).length ≤ 60 ∧
    tokenCount (cleanText "1. OVERVIEW".toList) ≤ 8 ∧
    detect "1. OVERVIEW".toList 2 = some (.H1, cleanText "1. OVERVIEW".toList) :=
  ⟨by decide, by decide, by decide, by decide, by decide,
   claim_C3 _ 2 (by decide) (by decide) (by decide) (by decide) (by decide)⟩

/-- C4: for every input sequence of pages, the outline produced by the
builder has no two entries agreeing on (level, text, page) — entries are
exactly such triples, so this is `Nodup` — and equals the canonical
first-occurrence deduplication of the pre-deduplication sequence, of which
it is in particular a sublist (relative order preserved). -/
theorem claim_C4 (pages : List (Option Str)) :
    (extractOutline pages).Nodup ∧
    extractOutline pages = firstDedup (rawOutlineFrom 1 pages) ∧
    List.Sublist (extractOutline pages) (rawOutlineFrom 1 pages) := by
  have heq : extractOutline pages = firstDedup (rawOutlineFrom 1 pages) := by
    unfold extractOutline
    rw [dedupGo_eq_firstDedup]
    have hf : (rawOutlineFrom 1 pages).filter (fun x => decide (x ∉ ([] : List Entry))) =
        rawOutlineFrom 1 pages := by
      apply List.filter_eq_self.mpr
      intro a _
      simp
    rw [hf]
  refine ⟨?_, heq, ?_⟩
  · rw [heq]
    exact firstDedup_nodup _
  · rw [heq]
    exact firstDedup_sublist _

/-- C5: the text normalizer is idempotent. -/
theorem claim_C5 (s : Str) : cleanText (cleanText s) = cleanText s :=
  cleanText_idem s

set_option maxRecDepth 4000 in
/-- C6: on the first page "Acme Corp" / "Annual Report on Regional Market
Trends" / "© 2023 Acme" the title selector returns the second line with
exactly two trailing spaces; in general every selected title is some
candidate with two trailing spaces appended, and the empty string is
returned when no candidate among the first 15 non-empty normalized lines
is accepted. -/
theorem claim_C6 :
    extractTitleSmart
        (some "Acme Corp\nAnnual Report on Regional Market Trends\n© 2023 Acme".toList) =
      "Annual Report on Regional Market Trends  ".toList ∧
    (∀ t, extractTitleSmart t = [] ∨ ∃ u, extractTitleSmart t = u ++ [' ', ' ']) ∧
    (∀ t, ((titleCandidates t).all fun l => !titleAccept l) = true →
      extractTitleSmart (some t) = []) := by
  refine ⟨by decide, ?_, ?_⟩
  · intro t
    cases t with
    | none => exact Or.inl rfl
    | some t' =>
      by_cases h : t'.isEmpty = true
      · left
        simp [extractTitleSmart, h]
      · rw [show extractTitleSmart (some t') = titleLoop (titleCandidates t') from by
          simp [extractTitleSmart, h]]
        exact titleLoop_shape _
  · intro t h
    by_cases ht : t.isEmpty = true
    · simp [extractTitleSmart, ht]
    · rw [show extractTitleSmart (some t) = titleLoop (titleCandidates t) from by
        simp [extractTitleSmart, ht]]
      exact titleLoop_none h

/-- C6 witness: a page whose only line is too short for a title yields the
empty string. -/
theorem claim_C6_witness :
    ((titleCandidates "hi".toList).all fun l => !titleAccept l) = true ∧
    extractTitleSmart (some "hi".toList) = [] :=
  ⟨by decide, claim_C6.2.2 _ (by decide)⟩

/-- C7: for every page number, "Executive Summary:" is classified H2 with
the trailing colon removed and the page number carried into the entry. -/
theorem claim_C7 (p : Nat) :
    classify "Executive Summary:".toList p =
      some ⟨.H2, "Executive Summary".toList, p⟩ :=
  rfl

/-- C8: the classifier's decision is identical for any two page numbers —
the page argument is never read — and the page number is only copied
unchanged into the page field of the entry built from the result. -/
theorem claim_C8 (line : Str) (p q : Nat) :
    detect line p = detect line q ∧
    classify line p = (detect line q).map (fun lt => ⟨lt.1, lt.2, p⟩) :=
  ⟨rfl, rfl⟩

/-- C9: the outline builder is total: the empty page sequence yields an
empty outline, a page with absent or empty text contributes no entries, and
a document whose pages classify no headings yields an empty outline. -/
theorem claim_C9 :
    extractOutline [] = [] ∧
    (∀ pn, pageEntriesOpt pn none = [] ∧ pageEntriesOpt pn (some []) = []) ∧
    (∀ pages, rawOutlineFrom 1 pages = [] → extractOutline pages = []) := by
  refine ⟨rfl, fun pn => ⟨rfl, rfl⟩, fun pages h => ?_⟩
  unfold extractOutline
  rw [h]
  rfl

/-- C9 witness: a one-page document whose only line is too short produces
no headings and an empty outline. -/
theorem claim_C9_witness :
    rawOutlineFrom 1 [some "ab".toList] = [] ∧
    extractOutline [some "ab".toList] = [] :=
  ⟨by decide, claim_C9.2.2 _ (by decide)⟩

/-- C10: classification is invariant under pre-normalization of its input:
the classifier normalizes first and the normalizer is idempotent. -/
theorem claim_C10 (s : Str) (p : Nat) : detect (cleanText s) p = detect s p := by
  unfold detect
  rw [cleanText_idem]

end PdfOutline

